import Mathlib

/-
Verification development for the n8n-Ui-Builder repository.

The repository's core consists of three subsystems, each shallowly embedded
here from its source file:
  * the template expression evaluator (`src/utils/evaluator.ts`,
    `evaluateExpression`),
  * the component tree store (`src/store/editorStore.ts`: `findNode`,
    `findAndModify`, `addComponent`, `deleteComponent`, `moveComponentTo`),
  * the action execution pipeline (`src/utils/actionRunner.ts`, `runActions`).

JavaScript runtime values are embedded as the inductive type `JVal`, which
includes an explicit `undefined` constructor mirroring JavaScript's `undefined`
(distinct from `null`).  Objects are association lists with insertion-order
keys, as in JS.  Numbers are embedded as integers: every numeric value
occurring in the verified behaviours is integral.

External library routines used by the source are embedded as follows:
  * `lodash.get` over dotted string paths is implemented (`getPath`),
  * `fetch` is an oracle (`FetchOutcome` supplied per call),
  * `JSON.parse` is an uninterpreted parameter (its result never influences
    any verified property),
  * `Date.now()` is an explicit argument of `addComponent`.
-/

namespace UIB

/-- JavaScript-like runtime values, including `undefined`. -/
inductive JVal where
  | undefined : JVal
  | null : JVal
  | boolean (b : Bool) : JVal
  | num (n : Int) : JVal
  | str (s : String) : JVal
  | arr (elems : List JVal) : JVal
  | obj (fields : List (String × JVal)) : JVal

/-- A JS object: association list of fields in insertion order. -/
abbrev Obj := List (String × JVal)

/-- Property read `o[k]`: first matching field, `undefined` when absent. -/
def objGet : Obj → String → JVal
  | [], _ => .undefined
  | (k, v) :: rest, key => if k = key then v else objGet rest key

/-- Property write `{...o, [k]: v}`: replaces the existing field in place,
otherwise appends, preserving JS key enumeration order. -/
def setKey : Obj → String → JVal → Obj
  | [], key, v => [(key, v)]
  | (k, w) :: rest, key, v =>
    if k = key then (k, v) :: rest else (k, w) :: setKey rest key v

/-- Object spread `{...a, ...b}`. -/
def mergeObj (a b : Obj) : Obj :=
  b.foldl (fun acc kv => setKey acc kv.1 kv.2) a

/-- JS truthiness (`NaN` is outside the embedded value space). -/
def truthy : JVal → Bool
  | .undefined => false
  | .null => false
  | .boolean b => b
  | .num n => n ≠ 0
  | .str s => s ≠ ""
  | .arr _ => true
  | .obj _ => true

/-- `x || d` on JS values. -/
def jsOr (x d : JVal) : JVal := if truthy x then x else d

/-- Sign-aware decimal rendering of an integer, as JS `String(n)`. -/
def intToString (n : Int) : String :=
  if n < 0 then "-" ++ Nat.repr n.natAbs else Nat.repr n.natAbs

mutual

/-- JS `String(v)`.  Arrays render as their comma-joined elements, objects as
the literal `[object Object]`. -/
def jsToString : JVal → String
  | .undefined => "undefined"
  | .null => "null"
  | .boolean true => "true"
  | .boolean false => "false"
  | .num n => intToString n
  | .str s => s
  | .arr xs => jsArrToString xs
  | .obj _ => "[object Object]"

/-- `Array.prototype.toString`: join with commas; `null`/`undefined` elements
render as the empty string. -/
def jsArrToString : List JVal → String
  | [] => ""
  | x :: xs =>
    (match x with
     | .undefined => ""
     | .null => ""
     | .boolean b => jsToString (.boolean b)
     | .num n => jsToString (.num n)
     | .str s => jsToString (.str s)
     | .arr ys => jsToString (.arr ys)
     | .obj fs => jsToString (.obj fs)) ++
    (match xs with
     | [] => ""
     | _ :: _ => "," ++ jsArrToString xs)

end

/- ------------------------------------------------------------------
   lodash path resolution (`_.get`), for dotted string paths.
   ------------------------------------------------------------------ -/

/-- Splits a character list at every `.` (lodash `stringToPath` for plain
dotted paths; a path without dots is a single key, whatever it contains). -/
def splitOnDot : List Char → List (List Char)
  | [] => [[]]
  | c :: rest =>
    if c = '.' then [] :: splitOnDot rest
    else match splitOnDot rest with
      | s :: ss => (c :: s) :: ss
      | [] => [[c]]

/-- Decimal digit run to a number; rejects empty runs and leading zeros, as
lodash's array-index test does. -/
def digitsToNat (seg : List Char) : Option Nat :=
  if seg ≠ [] ∧ seg.all Char.isDigit ∧ (seg = ['0'] ∨ seg.head? ≠ some '0') then
    some (seg.foldl (fun acc c => acc * 10 + (c.toNat - '0'.toNat)) 0)
  else none

/-- Field lookup with a character-list key. -/
def objGetSeg : Obj → List Char → JVal
  | [], _ => .undefined
  | (k, v) :: rest, seg => if k.data = seg then v else objGetSeg rest seg

/-- One step of path traversal: objects by key, arrays by index (and
`length`), anything else resolves to `undefined`. -/
def pathStep (v : JVal) (seg : List Char) : JVal :=
  match v with
  | .obj fs => objGetSeg fs seg
  | .arr xs =>
    if seg = "length".data then .num xs.length
    else match digitsToNat seg with
      | some i => (xs.get? i).getD .undefined
      | none => .undefined
  | _ => .undefined

/-- `_.get(v, path)`: traverse the dotted path, `undefined` when any step is
missing (never throws). -/
def getPath (v : JVal) (path : List Char) : JVal :=
  (splitOnDot path).foldl pathStep v

/- ------------------------------------------------------------------
   The expression evaluator (`src/utils/evaluator.ts`).
   ------------------------------------------------------------------ -/

/-- JS regex whitespace class members appearing in template strings. -/
def isJsWs (c : Char) : Bool :=
  c = ' ' ∨ c = '\t' ∨ c = '\n' ∨ c = '\r' ∨ c = '\x0b' ∨ c = '\x0c'

/-- Characters the JS regex `.` does not match. -/
def isNl (c : Char) : Bool := c = '\n' ∨ c = '\r'

/-- JS `String.prototype.trim`. -/
def trimL (l : List Char) : List Char :=
  ((l.dropWhile isJsWs).reverse.dropWhile isJsWs).reverse

/-- Backtracking tail of the anchored pure-reference regex
`^\s*\x7b\x7b(.+?)\x7d\x7d\s*$`: given the characters after the group's
mandatory first character, finds the shortest group extension `m` such that
the input is `m ++ "\x7d\x7d" ++ trailing-whitespace`, with every group
character matched by `.` (no newline). -/
def pureCloseG : List Char → Option (List Char)
  | '\x7d' :: '\x7d' :: tail =>
    if tail.all isJsWs then some []
    else (pureCloseG ('\x7d' :: tail)).map (fun m => '\x7d' :: m)
  | c :: rest =>
    if isNl c then none else (pureCloseG rest).map (fun m => c :: m)
  | [] => none

/-- The anchored pure-reference test of `evaluateExpression`:
`template.match(/^\s*\x7b\x7b(.+?)\x7d\x7d\s*$/)`.  Returns the captured
group when the regex matches. -/
def pureMatchL (l : List Char) : Option (List Char) :=
  match l.dropWhile isJsWs with
  | '\x7b' :: '\x7b' :: rest =>
    match rest with
    | c :: rest2 =>
      if isNl c then none
      else (pureCloseG rest2).map (fun m => c :: m)
    | [] => none
  | _ => none

/-- Lazy close for the global interpolation regex
`/\x7b\x7b(.+?)\x7d\x7d/g`: shortest group extension up to the first
`\x7d\x7d`, group characters restricted to non-newline. -/
def findCloseG : List Char → Option (List Char × List Char)
  | '\x7d' :: '\x7d' :: tail => some ([], tail)
  | c :: rest =>
    if isNl c then none
    else (findCloseG rest).map (fun mt => (c :: mt.1, mt.2))
  | [] => none

/-- Whether the string contains `\x7b\x7b` (`template.includes('\x7b\x7b')`). -/
def containsOpen : List Char → Bool
  | '\x7b' :: '\x7b' :: _ => true
  | _ :: rest => containsOpen rest
  | [] => false

/-- String form of one interpolated replacement: `_.get` with the empty
string as default, followed by the guard that renders `undefined` and
`null` as the empty string and stringifies anything else. -/
def interpSub (ctx : Obj) (grp : List Char) : String :=
  match getPath (.obj ctx) (trimL grp) with
  | .undefined => ""
  | .null => ""
  | v => jsToString v

/-- One left-to-right pass of `template.replace(/\x7b\x7b(.+?)\x7d\x7d/g, ...)`.
The fuel argument strictly exceeds the input length at every call, so the
zero-fuel branch is unreachable; recursion re-scans from the second `\x7b`
when an opener has no matching close, exactly as the regex engine advances
its scan position by one. -/
def interpGo (ctx : Obj) : Nat → List Char → String
  | 0, _ => ""
  | _ + 1, [] => ""
  | fuel + 1, '\x7b' :: '\x7b' :: rest =>
    (match rest with
     | c :: rest2 =>
       if isNl c then "\x7b" ++ interpGo ctx fuel ('\x7b' :: rest)
       else match findCloseG rest2 with
         | some (m, tail) => interpSub ctx (c :: m) ++ interpGo ctx fuel tail
         | none => "\x7b" ++ interpGo ctx fuel ('\x7b' :: rest)
     | [] => "\x7b\x7b")
  | fuel + 1, c :: rest => String.singleton c ++ interpGo ctx fuel rest

/-- `evaluateExpression` from `src/utils/evaluator.ts`: non-strings are
returned unchanged; a pure reference resolves with native type preserved
(`_.get(context, path, undefined)`); otherwise a string containing
`\x7b\x7b` is interpolated; otherwise the string is returned unchanged. -/
def evaluateExpression (template : JVal) (context : Obj) : JVal :=
  match template with
  | .str s =>
    match pureMatchL s.data with
    | some grp => getPath (.obj context) (trimL grp)
    | none =>
      if containsOpen s.data then
        .str (interpGo context (s.data.length + 1) s.data)
      else .str s
  | t => t

/- ------------------------------------------------------------------
   The component tree (`src/types/schema.ts`, `src/store/editorStore.ts`).
   ------------------------------------------------------------------ -/

/-- The closed `ComponentType` union of `schema.ts`. -/
inductive ComponentType where
  | page | container | row | column | input | button | text | image | table | select
deriving DecidableEq

/-- The string each `ComponentType` literal denotes in the source. -/
def ctypeName : ComponentType → String
  | .page => "page"
  | .container => "container"
  | .row => "row"
  | .column => "column"
  | .input => "input"
  | .button => "button"
  | .text => "text"
  | .image => "image"
  | .table => "table"
  | .select => "select"

/-- The `ActionType` union of `schema.ts`. -/
inductive ActionType where
  | n8nWebhook | setStateAct | consoleLog | alert
deriving DecidableEq

/-- The `Action` interface of `schema.ts`. -/
structure Action where
  id : String
  type : ActionType
  config : Obj

/-- The `ComponentSchema` interface of `schema.ts`.  `children` is `none`
exactly when the JS field is `undefined`. -/
inductive ComponentSchema where
  | mk (id : String) (type : ComponentType) (label : Option String)
       (props : Obj) (style : Option Obj)
       (events : Option (List (String × List Action)))
       (children : Option (List ComponentSchema)) : ComponentSchema

namespace ComponentSchema

def id : ComponentSchema → String
  | .mk i _ _ _ _ _ _ => i

def type : ComponentSchema → ComponentType
  | .mk _ t _ _ _ _ _ => t

def children : ComponentSchema → Option (List ComponentSchema)
  | .mk _ _ _ _ _ _ co => co

end ComponentSchema

mutual

/-- Pre-order list of every node id in the tree (the node itself first, then
its children's subtrees left to right). -/
def allIds : ComponentSchema → List String
  | .mk i _ _ _ _ _ none => [i]
  | .mk i _ _ _ _ _ (some cs) => i :: allIdsList cs

def allIdsList : List ComponentSchema → List String
  | [] => []
  | c :: cs => allIds c ++ allIdsList cs

end

mutual

/-- `findNode` of `editorStore.ts`: depth-first pre-order search, first
match by id wins. -/
def findNode : ComponentSchema → String → Option ComponentSchema
  | .mk i t l p s e none, tid =>
    if i = tid then some (.mk i t l p s e none) else none
  | .mk i t l p s e (some cs), tid =>
    if i = tid then some (.mk i t l p s e (some cs)) else findNodeList cs tid

def findNodeList : List ComponentSchema → String → Option ComponentSchema
  | [], _ => none
  | c :: rest, tid =>
    match findNode c tid with
    | some r => some r
    | none => findNodeList rest tid

end

mutual

/-- `findAndModify` of `editorStore.ts`, in the form its node-callback users
(`addComponent`, `updateComponent`) instantiate: the callback `f` is applied
to the first pre-order node whose id is `tid`; the Bool reports whether a
match was found. -/
def findAndModify (tid : String) (f : ComponentSchema → ComponentSchema) :
    ComponentSchema → ComponentSchema × Bool
  | .mk i t l p s e none =>
    if i = tid then (f (.mk i t l p s e none), true) else (.mk i t l p s e none, false)
  | .mk i t l p s e (some cs) =>
    if i = tid then (f (.mk i t l p s e (some cs)), true)
    else
      let r := findAndModifyList tid f cs
      (.mk i t l p s e (some r.1), r.2)

def findAndModifyList (tid : String) (f : ComponentSchema → ComponentSchema) :
    List ComponentSchema → List ComponentSchema × Bool
  | [] => ([], false)
  | c :: rest =>
    let rc := findAndModify tid f c
    if rc.2 then (rc.1 :: rest, true)
    else
      let rr := findAndModifyList tid f rest
      (c :: rr.1, rr.2)

end

mutual

/-- `findAndModify` of `editorStore.ts`, in the form its parent-callback user
`deleteComponent` instantiates: the first pre-order node whose id is `tid` is
spliced out of its parent's child list; a match with no parent (the root)
changes nothing.  The Bool reports whether a match was found. -/
def deleteIn (tid : String) : ComponentSchema → ComponentSchema × Bool
  | .mk i t l p s e none => (.mk i t l p s e none, i = tid)
  | .mk i t l p s e (some cs) =>
    if i = tid then (.mk i t l p s e (some cs), true)
    else
      let r := deleteInList tid cs
      (.mk i t l p s e (some r.1), r.2)

def deleteInList (tid : String) : List ComponentSchema → List ComponentSchema × Bool
  | [] => ([], false)
  | c :: rest =>
    if c.id = tid then (rest, true)
    else
      let rc := deleteIn tid c
      if rc.2 then (rc.1 :: rest, true)
      else
        let rr := deleteInList tid rest
        (c :: rr.1, rr.2)

end

/-- The fresh component `addComponent` synthesizes: id is
`type_Date.now()`, children only for the container kinds it lists,
flex style only for rows. -/
def newComponent (ty : ComponentType) (now : Nat) : ComponentSchema :=
  .mk (ctypeName ty ++ "_" ++ toString now) ty (some (ctypeName ty)) []
    (some (if ty = .row then [("display", .str "flex"), ("gap", .str "10px")] else []))
    none
    (if ty = .container ∨ ty = .row ∨ ty = .column then some [] else none)

/-- The callback `addComponent` passes to `findAndModify`:
`if (!node.children) node.children = []; node.children.push(newComponent)`. -/
def appendChild (c : ComponentSchema) : ComponentSchema → ComponentSchema
  | .mk i t l p s e none => .mk i t l p s e (some [c])
  | .mk i t l p s e (some cs) => .mk i t l p s e (some (cs ++ [c]))

/-- `addComponent` of `editorStore.ts` with `Date.now()` made explicit.
Returns the new root together with the new `selectedId` (always the fresh
component's id, found or not). -/
def addComponent (root : ComponentSchema) (parentId : String) (ty : ComponentType)
    (now : Nat) : ComponentSchema × String :=
  let comp := newComponent ty now
  if parentId = "root" then (appendChild comp root, comp.id)
  else ((findAndModify parentId (appendChild comp) root).1, comp.id)

/-- `deleteComponent` of `editorStore.ts`: guarded no-op on the literal id
`root`; otherwise splices out the first match (if it has a parent) and
unconditionally clears the selection. -/
def deleteComponent (root : ComponentSchema) (selectedId : Option String)
    (did : String) : ComponentSchema × Option String :=
  if did = "root" then (root, selectedId)
  else ((deleteIn did root).1, none)

/-- The `removeNode` closure of `moveComponentTo`: at each node, first scan
the direct children for the dragged id (`findIndex` + `splice`), then recurse
into each child in order.  Returns the tree without the dragged subtree and
the dragged subtree itself. -/
def extractById (did : String) :
    List ComponentSchema → Option (List ComponentSchema × ComponentSchema)
  | [] => none
  | c :: cs =>
    if c.id = did then some (cs, c)
    else (extractById did cs).map (fun r => (c :: r.1, r.2))

mutual

/-- The recursive body of the `removeNode` closure. -/
def removeNode (did : String) :
    ComponentSchema → Option (ComponentSchema × ComponentSchema)
  | .mk _ _ _ _ _ _ none => none
  | .mk i t l p s e (some cs) =>
    match extractById did cs with
    | some r => some (.mk i t l p s e (some r.1), r.2)
    | none =>
      match removeNodeList did cs with
      | some r => some (.mk i t l p s e (some r.1), r.2)
      | none => none

def removeNodeList (did : String) :
    List ComponentSchema → Option (List ComponentSchema × ComponentSchema)
  | [] => none
  | c :: cs =>
    match removeNode did c with
    | some r => some (r.1 :: cs, r.2)
    | none => (removeNodeList did cs).map (fun r => (c :: r.1, r.2))

end

/-- Index clamping of `insertNode`:
`Math.min(Math.max(index, 0), node.children.length)`. -/
def clampIdx (index : Int) (len : Nat) : Nat :=
  (min (max index 0) (len : Int)).toNat

mutual

/-- The `insertNode` closure of `moveComponentTo`: pre-order search for the
target id; at the target, the children list is created if absent and the
dragged node is spliced in at the clamped index. -/
def insertNode (tid : String) (index : Int) (dragged : ComponentSchema) :
    ComponentSchema → Option ComponentSchema
  | .mk i t l p s e none =>
    if i = tid then some (.mk i t l p s e (some [dragged])) else none
  | .mk i t l p s e (some cs) =>
    if i = tid then
      some (.mk i t l p s e (some (cs.insertIdx (clampIdx index cs.length) dragged)))
    else (insertNodeList tid index dragged cs).map
      (fun cs' => .mk i t l p s e (some cs'))

def insertNodeList (tid : String) (index : Int) (dragged : ComponentSchema) :
    List ComponentSchema → Option (List ComponentSchema)
  | [] => none
  | c :: cs =>
    match insertNode tid index dragged c with
    | some c' => some (c' :: cs)
    | none => (insertNodeList tid index dragged cs).map (fun cs' => c :: cs')

end

/-- `moveComponentTo` of `editorStore.ts`: guards, then remove-then-insert on
a working copy; any failure discards the copy and keeps the previous tree. -/
def moveComponentTo (root : ComponentSchema) (dragId targetId : String)
    (index : Int) : ComponentSchema :=
  if dragId = "root" then root
  else if dragId = targetId then root
  else
    match removeNode dragId root with
    | none => root
    | some r =>
      match insertNode targetId index r.2 r.1 with
      | some newRoot => newRoot
      | none => root

/-- The initial root of the store: a `page` node with id `root`. -/
def initialRoot : ComponentSchema :=
  .mk "root" .page (some "Page Root") []
    (some [("padding", .str "20px"), ("minHeight", .str "100%")])
    none (some [])

/- ------------------------------------------------------------------
   The action pipeline (`src/utils/actionRunner.ts`).
   ------------------------------------------------------------------ -/

/-- How one `fetch` call settles: a parsed JSON response, a rejected network
call, or a `response.json()` that throws. -/
inductive FetchOutcome where
  | ok (json : JVal)
  | netFail
  | jsonFail

/-- One outbound HTTP request as `runActions` issues it. -/
structure Request where
  url : JVal
  method : JVal
  body : Option JVal

/-- Whether a value is exactly the string `GET` (`method !== 'GET'`). -/
def isGet : JVal → Bool
  | .str s => s = "GET"
  | _ => false

/-- Whether a value is `undefined`. -/
def isUndefined : JVal → Bool
  | .undefined => true
  | _ => false

/-- Object-literal spread `{...v}` of an arbitrary value: objects keep their
fields, arrays and strings spread their indexed elements, primitives spread
to nothing. -/
def spreadToObj : JVal → Obj
  | .obj fs => fs
  | .arr xs => xs.enum.map (fun ix => (toString ix.1, ix.2))
  | .str s => s.data.enum.map (fun ic => (toString ic.1, .str (String.singleton ic.2)))
  | _ => []

/-- The `body` local of the `n8n-webhook` case: `\x7b\x7d` when
`config.body` is falsy; a string body is JSON-parsed, falling back to
`\x7b value: evaluateExpression(bodyTemplate, context) \x7d` when the parse
throws; any other value is used as-is. -/
def webhookBodyVal (jsonParse : String → Option JVal) (cfgBody : JVal)
    (context : Obj) : JVal :=
  if truthy cfgBody then
    match cfgBody with
    | .str s =>
      match jsonParse s with
      | some parsed => parsed
      | none => .obj [("value", evaluateExpression (.str s) context)]
    | v => v
  else .obj []

/-- The characters of a `responseMapping` path (`responsePath as string`). -/
def respPathChars : JVal → List Char
  | .str p => p.data
  | v => (jsToString v).data

/-- The `responseMapping` loop: for each `(stateKey, responsePath)` pair in
order, resolve the path in the response and, unless it is `undefined`, write
it to the store under `stateKey`. -/
def applyResponseMapping (json : JVal) (store : Obj) (pairs : Obj) : Obj :=
  pairs.foldl
    (fun st kv =>
      let value := getPath json (respPathChars kv.2)
      if isUndefined value then st else setKey st kv.1 value)
    store

/-- Store update on a successfully parsed webhook response: apply a
configured non-empty object `responseMapping`, otherwise write the whole
response to `lastResult`.  (`responseMapping` is an object per the action
configuration surface; non-object values are treated as absent.) -/
def webhookStoreUpdate (cfg : Obj) (json : JVal) (store : Obj) : Obj :=
  match objGet cfg "responseMapping" with
  | .obj (p :: ps) => applyResponseMapping json store (p :: ps)
  | _ => setKey store "lastResult" json

/-- The `for (const action of actions)` loop of `runActions`.

`context` and `globalData` are the merged evaluation context and the
`storeData` snapshot, both captured once before the loop, exactly as the
source closes over them; `store` is the live store value threaded through
`setStoreData` writes; `k` counts webhook calls so the `env` oracle can
settle each `fetch` individually.  The per-action `try/catch` appears as the
failure branches: a rejected `fetch` or `response.json()` leaves the store
untouched for that action and the loop continues.  Each action's
asynchronous work is awaited, so the loop is strictly sequential. -/
def runActionsGo (context globalData : Obj) (env : Nat → FetchOutcome)
    (jsonParse : String → Option JVal) :
    List Action → Obj → Nat → Obj × List Request
  | [], store, _ => (store, [])
  | a :: rest, store, k =>
    match a.type with
    | .consoleLog => runActionsGo context globalData env jsonParse rest store k
    | .alert => runActionsGo context globalData env jsonParse rest store k
    | .setStateAct =>
      let key := jsToString (objGet a.config "key")
      let value := evaluateExpression (objGet a.config "value") context
      runActionsGo context globalData env jsonParse rest (setKey store key value) k
    | .n8nWebhook =>
      let url := objGet a.config "url"
      let method := jsOr (objGet a.config "method") (.str "POST")
      let bodyVal := webhookBodyVal jsonParse (objGet a.config "body") context
      let finalBody := setKey (spreadToObj bodyVal) "context" (.obj globalData)
      let req : Request :=
        ⟨url, method, if isGet method then none else some (.obj finalBody)⟩
      match env k with
      | .netFail =>
        let r := runActionsGo context globalData env jsonParse rest store (k + 1)
        (r.1, req :: r.2)
      | .jsonFail =>
        let r := runActionsGo context globalData env jsonParse rest store (k + 1)
        (r.1, req :: r.2)
      | .ok json =>
        let r := runActionsGo context globalData env jsonParse rest
          (webhookStoreUpdate a.config json store) (k + 1)
        (r.1, req :: r.2)

/-- `runActions` of `src/utils/actionRunner.ts`: captures `storeData` once,
merges it with the local context once, then interprets the action list.
Returns the final store together with the trace of outbound requests. -/
def runActions (actions : List Action) (localContext : Obj) (storeData : Obj)
    (env : Nat → FetchOutcome) (jsonParse : String → Option JVal) :
    Obj × List Request :=
  match actions with
  | [] => (storeData, [])
  | _ =>
    runActionsGo (mergeObj storeData localContext) storeData env jsonParse
      actions storeData 0

/- ------------------------------------------------------------------
   Derived accessors and concrete instances used in the statements.
   ------------------------------------------------------------------ -/

/-- A node's child list, empty when the `children` field is absent. -/
def childList (n : ComponentSchema) : List ComponentSchema :=
  n.children.getD []

/-- Replace a node's `children` field. -/
def setChildren : ComponentSchema → Option (List ComponentSchema) → ComponentSchema
  | .mk i t l p s e _, co => .mk i t l p s e co

/-- A page root holding a single childless `button` leaf. -/
def btnLeafRoot : ComponentSchema :=
  .mk "root" .page none [] none none
    (some [.mk "btn1" .button none [] none none none])

/-- A page root holding two `text` leaves `a` and `b`. -/
def selRoot : ComponentSchema :=
  .mk "root" .page none [] none none
    (some [.mk "a" .text none [] none none none,
           .mk "b" .text none [] none none none])

/-- A page root holding an empty container `c1` and a `text` leaf `x`. -/
def moveDemoRoot : ComponentSchema :=
  .mk "root" .page none [] none none
    (some [.mk "c1" .container none [] none none (some []),
           .mk "x" .text none [] none none none])

/-- A `setState` action writing the literal `v` to the context key `k`. -/
def setStateAction (k v : String) : Action :=
  ⟨"set_" ++ k, .setStateAct, [("key", .str k), ("value", .str v)]⟩

/-- A minimal `n8n-webhook` action: url only, so that the method defaults to
`POST` and the body to the empty object. -/
def plainHookAction : Action :=
  ⟨"hook", .n8nWebhook, [("url", .str "u")]⟩

/-- The evaluation context `\x7ba: \x7bb: 5\x7d\x7d` of the round-trip cases. -/
def abContext : Obj := [("a", .obj [("b", .num 5)])]

/-- Number of `n8n-webhook` entries in an action list (the number of
`fetch` calls one pass performs). -/
def webhookCount (acts : List Action) : Nat :=
  acts.countP (fun a => decide (a.type = ActionType.n8nWebhook))

/- ------------------------------------------------------------------
   General lemmas about the embedded operations.
   ------------------------------------------------------------------ -/

theorem objGet_setKey_self (o : Obj) (k : String) (v : JVal) :
    objGet (setKey o k v) k = v := by
  induction o with
  | nil => simp [setKey, objGet]
  | cons kv rest ih =>
    obtain ⟨k', w⟩ := kv
    by_cases h : k' = k <;> simp [setKey, objGet, h, ih]

theorem objGetSeg_eq_objGet (o : Obj) (key : String) :
    objGetSeg o key.data = objGet o key := by
  induction o with
  | nil => simp [objGetSeg, objGet]
  | cons kv rest ih =>
    obtain ⟨k', w⟩ := kv
    have hdata : (k'.data = key.data) ↔ (k' = key) := by
      constructor
      · intro h
        cases k'; cases key
        exact congrArg String.mk h
      · intro h; rw [h]
    by_cases h : k' = key
    · simp [objGetSeg, objGet, h]
    · simp [objGetSeg, objGet, h, hdata, ih]

theorem allIdsList_append (l1 l2 : List ComponentSchema) :
    allIdsList (l1 ++ l2) = allIdsList l1 ++ allIdsList l2 := by
  induction l1 with
  | nil => simp [allIdsList]
  | cons c cs ih => simp [allIdsList, ih]

theorem allIds_eq_cons (n : ComponentSchema) :
    allIds n = n.id :: allIdsList (childList n) := by
  match n with
  | .mk i t l p s e none => rfl
  | .mk i t l p s e (some cs) => rfl

theorem mem_allIdsList {x : String} {cs : List ComponentSchema} :
    x ∈ allIdsList cs ↔ ∃ c ∈ cs, x ∈ allIds c := by
  induction cs with
  | nil => simp [allIdsList]
  | cons c rest ih => simp [allIdsList, ih]

theorem id_mem_allIds (n : ComponentSchema) : n.id ∈ allIds n := by
  rw [allIds_eq_cons]; exact List.mem_cons_self _ _

mutual

theorem findNode_eq_none_of_not_mem (n : ComponentSchema) (tid : String)
    (h : tid ∉ allIds n) : findNode n tid = none := by
  match n with
  | .mk i t l p s e none =>
    simp [allIds] at h
    have hne : ¬ i = tid := fun hh => h hh.symm
    simp [findNode, hne]
  | .mk i t l p s e (some cs) =>
    simp [allIds] at h
    have hne : ¬ i = tid := fun hh => h.1 hh.symm
    simp [findNode, hne, findNodeList_eq_none_of_not_mem cs tid h.2]

theorem findNodeList_eq_none_of_not_mem (cs : List ComponentSchema) (tid : String)
    (h : tid ∉ allIdsList cs) : findNodeList cs tid = none := by
  match cs with
  | [] => simp [findNodeList]
  | c :: rest =>
    simp [allIdsList] at h
    simp [findNodeList, findNode_eq_none_of_not_mem c tid h.1,
      findNodeList_eq_none_of_not_mem rest tid h.2]

end

mutual

theorem mem_allIds_of_findNode_eq_some {n : ComponentSchema} {tid : String}
    {d : ComponentSchema} (h : findNode n tid = some d) : tid ∈ allIds n := by
  match n with
  | .mk i t l p s e none =>
    simp [findNode] at h
    simp [allIds, h.1]
  | .mk i t l p s e (some cs) =>
    rw [findNode] at h
    by_cases hi : i = tid
    · rw [allIds_eq_cons]; simp [ComponentSchema.id, hi]
    · simp [hi] at h
      rw [allIds_eq_cons]
      simp [ComponentSchema.id, childList, ComponentSchema.children]
      exact Or.inr (mem_allIdsList_of_findNodeList_eq_some h)

theorem mem_allIdsList_of_findNodeList_eq_some {cs : List ComponentSchema}
    {tid : String} {d : ComponentSchema} (h : findNodeList cs tid = some d) :
    tid ∈ allIdsList cs := by
  match cs with
  | [] => simp [findNodeList] at h
  | c :: rest =>
    rw [findNodeList] at h
    simp [allIdsList]
    match hc : findNode c tid with
    | some r => exact Or.inl (mem_allIds_of_findNode_eq_some hc)
    | none =>
      rw [hc] at h
      exact Or.inr (mem_allIdsList_of_findNodeList_eq_some h)

end

theorem findNode_self {n : ComponentSchema} {tid : String} (h : n.id = tid) :
    findNode n tid = some n := by
  match n with
  | .mk i t l p s e none =>
    simp [ComponentSchema.id] at h
    simp [findNode, h]
  | .mk i t l p s e (some cs) =>
    simp [ComponentSchema.id] at h
    simp [findNode, h]

/- ------------------------------------------------------------------
   C5 and C6: the expression evaluator.
   ------------------------------------------------------------------ -/

/-- C5: the expression evaluator satisfies the four round-trip cases:
a pure reference preserves the native number, a mixed template stringifies
it, a missing pure reference yields `undefined` (not a string), and a
missing interpolated reference yields the empty string. -/
theorem c5_expression_roundtrip :
    evaluateExpression (.str "\x7b\x7b a.b \x7d\x7d") abContext = .num 5 ∧
    evaluateExpression (.str "x=\x7b\x7b a.b \x7d\x7d") abContext = .str "x=5" ∧
    evaluateExpression (.str "\x7b\x7b missing \x7d\x7d") [] = .undefined ∧
    evaluateExpression (.str "y=\x7b\x7b missing \x7d\x7d") [] = .str "y=" :=
  ⟨rfl, rfl, rfl, rfl⟩

/-- C6 (the code at the failing input): the template with two references and
no other non-whitespace text outside them is captured by the anchored
pure-reference regex through backtracking — the group spans from the first
opener to the last closer — so `evaluateExpression` resolves the whole
template as the single path `a \x7d\x7d \x7b\x7b b` and returns `undefined`,
not the interpolated string the claim requires. -/
theorem c6_two_references_resolved_as_pure :
    pureMatchL ("\x7b\x7b a \x7d\x7d \x7b\x7b b \x7d\x7d").data =
      some (" a \x7d\x7d \x7b\x7b b ").data ∧
    evaluateExpression (.str "\x7b\x7b a \x7d\x7d \x7b\x7b b \x7d\x7d")
      [("a", .num 1), ("b", .num 2)] = .undefined ∧
    (∀ s : String, JVal.undefined ≠ JVal.str s) :=
  ⟨rfl, rfl, fun _ h => JVal.noConfusion h⟩

/- ------------------------------------------------------------------
   C4: id synthesis in `addComponent`.
   ------------------------------------------------------------------ -/

/-- C4 (the code at the failing input): two `addComponent` calls of the same
type within the same `Date.now()` millisecond synthesize the same id
`text_1000`, so the resulting tree carries a duplicate id — the claimed
uniqueness is violated. -/
theorem c4_duplicate_ids_same_millisecond :
    allIds (addComponent (addComponent initialRoot "root" .text 1000).1
        "root" .text 1000).1 = ["root", "text_1000", "text_1000"] ∧
    ¬ (allIds (addComponent (addComponent initialRoot "root" .text 1000).1
        "root" .text 1000).1).Nodup :=
  ⟨rfl, by decide⟩

/- ------------------------------------------------------------------
   `findAndModify` lemmas (for C3).
   ------------------------------------------------------------------ -/

mutual

theorem findAndModify_not_found (tid : String) (f : ComponentSchema → ComponentSchema)
    (n : ComponentSchema) (h : findNode n tid = none) :
    findAndModify tid f n = (n, false) := by
  match n with
  | .mk i t l p s e none =>
    by_cases hi : i = tid
    · simp [findNode, hi] at h
    · simp [findAndModify, hi]
  | .mk i t l p s e (some cs) =>
    by_cases hi : i = tid
    · simp [findNode, hi] at h
    · rw [findNode] at h
      simp [hi] at h
      simp [findAndModify, hi, findAndModifyList_not_found tid f cs h]

theorem findAndModifyList_not_found (tid : String)
    (f : ComponentSchema → ComponentSchema) (cs : List ComponentSchema)
    (h : findNodeList cs tid = none) :
    findAndModifyList tid f cs = (cs, false) := by
  match cs with
  | [] => simp [findAndModifyList]
  | c :: rest =>
    rw [findNodeList] at h
    match hc : findNode c tid with
    | some r => rw [hc] at h; exact absurd h (by simp)
    | none =>
      rw [hc] at h
      simp [findAndModifyList, findAndModify_not_found tid f c hc,
        findAndModifyList_not_found tid f rest h]

end

mutual

theorem findAndModify_found (tid : String) (f : ComponentSchema → ComponentSchema)
    (hf : ∀ m, (f m).id = m.id) (n d : ComponentSchema)
    (h : findNode n tid = some d) :
    findNode (findAndModify tid f n).1 tid = some (f d) ∧
      (findAndModify tid f n).2 = true := by
  match n with
  | .mk i t l p s e none =>
    by_cases hi : i = tid
    · subst hi
      have hd : d = .mk i t l p s e none := by
        simp [findNode] at h; exact h.symm
      subst hd
      refine ⟨?_, by simp [findAndModify]⟩
      have : findNode (f (.mk i t l p s e none)) i = some (f (.mk i t l p s e none)) :=
        findNode_self (by rw [hf]; rfl)
      simpa [findAndModify] using this
    · simp [findNode, hi] at h
  | .mk i t l p s e (some cs) =>
    by_cases hi : i = tid
    · subst hi
      have hd : d = .mk i t l p s e (some cs) := by
        simp [findNode] at h; exact h.symm
      subst hd
      refine ⟨?_, by simp [findAndModify]⟩
      have : findNode (f (.mk i t l p s e (some cs))) i =
          some (f (.mk i t l p s e (some cs))) :=
        findNode_self (by rw [hf]; rfl)
      simpa [findAndModify] using this
    · rw [findNode] at h
      simp [hi] at h
      obtain ⟨h1, h2⟩ := findAndModifyList_found tid f hf cs d h
      refine ⟨?_, by simp [findAndModify, hi, h2]⟩
      simpa [findAndModify, findNode, hi] using h1

theorem findAndModifyList_found (tid : String)
    (f : ComponentSchema → ComponentSchema) (hf : ∀ m, (f m).id = m.id)
    (cs : List ComponentSchema) (d : ComponentSchema)
    (h : findNodeList cs tid = some d) :
    findNodeList (findAndModifyList tid f cs).1 tid = some (f d) ∧
      (findAndModifyList tid f cs).2 = true := by
  match cs with
  | [] => simp [findNodeList] at h
  | c :: rest =>
    rw [findNodeList] at h
    match hc : findNode c tid with
    | some r =>
      rw [hc] at h
      have hrd : r = d := by injection h
      subst hrd
      obtain ⟨h1, h2⟩ := findAndModify_found tid f hf c r hc
      refine ⟨?_, by simp [findAndModifyList, h2]⟩
      simp [findAndModifyList, h2, findNodeList, h1]
    | none =>
      rw [hc] at h
      obtain ⟨h1, h2⟩ := findAndModifyList_found tid f hf rest d h
      have hcmod := findAndModify_not_found tid f c hc
      refine ⟨?_, by simp [findAndModifyList, hcmod, h2]⟩
      simp [findAndModifyList, hcmod, findNodeList, hc, h1, h2]

end

theorem appendChild_id (c m : ComponentSchema) : (appendChild c m).id = m.id := by
  match m with
  | .mk i t l p s e none => rfl
  | .mk i t l p s e (some cs) => rfl

/- ------------------------------------------------------------------
   C3: inserting under a leaf parent.
   ------------------------------------------------------------------ -/

/-- C3 (counterexample): `btn1` is a `button` — a leaf kind — yet
`addComponent(btn1, text)` is not a no-op: the button acquires a `children`
list holding the new text node, so the claimed silent failure and leaf
immutability are both violated at this input. -/
theorem c3_counterexample :
    (findNode btnLeafRoot "btn1").map ComponentSchema.type = some .button ∧
    allIds btnLeafRoot = ["root", "btn1"] ∧
    allIds (addComponent btnLeafRoot "btn1" .text 5).1 = ["root", "btn1", "text_5"] ∧
    (addComponent btnLeafRoot "btn1" .text 5).1 ≠ btnLeafRoot ∧
    ((findNode (addComponent btnLeafRoot "btn1" .text 5).1 "btn1").bind
      ComponentSchema.children) = some [newComponent .text 5] :=
  ⟨rfl, rfl, rfl, fun h => absurd (congrArg allIds h) (by decide), rfl⟩

/-- C3 (amended): `insertChild(parentId, node)` (`addComponent`) appends the
new node to the children of whatever node `parentId` resolves to, regardless
of its kind, creating the `children` list when it is absent — so a leaf-kind
node can acquire children through `addComponent` (and likewise through
`moveComponentTo`'s insertion).  The operation leaves the structure
unchanged only when `parentId` is neither the literal `root` nor the id of
any node in the tree. -/
theorem c3_amended (root : ComponentSchema) (parentId : String)
    (ty : ComponentType) (now : Nat) :
    (parentId ≠ "root" → findNode root parentId = none →
      (addComponent root parentId ty now).1 = root) ∧
    (∀ n, parentId ≠ "root" → findNode root parentId = some n →
      findNode (addComponent root parentId ty now).1 parentId =
        some (appendChild (newComponent ty now) n)) := by
  constructor
  · intro hne hnone
    simp [addComponent, hne, findAndModify_not_found _ _ root hnone]
  · intro n hne hsome
    simp only [addComponent, if_neg hne]
    exact (findAndModify_found _ _ (fun m => appendChild_id _ m) root n hsome).1

/-- Witness for the amended C3 at concrete inputs: a missing parent id is a
structural no-op, and a found `button` parent gets the new node appended. -/
theorem c3_amended_witness :
    ("zz" ≠ "root" ∧ findNode btnLeafRoot "zz" = none ∧
      (addComponent btnLeafRoot "zz" .text 5).1 = btnLeafRoot) ∧
    ("btn1" ≠ "root" ∧
      findNode btnLeafRoot "btn1" = some (.mk "btn1" .button none [] none none none) ∧
      findNode (addComponent btnLeafRoot "btn1" .text 5).1 "btn1" =
        some (appendChild (newComponent .text 5)
          (.mk "btn1" .button none [] none none none))) :=
  ⟨⟨by decide, rfl, (c3_amended btnLeafRoot "zz" .text 5).1 (by decide) rfl⟩,
   ⟨by decide, rfl, (c3_amended btnLeafRoot "btn1" .text 5).2 _ (by decide) rfl⟩⟩


/- ------------------------------------------------------------------
   `deleteIn` lemmas (for C7).
   ------------------------------------------------------------------ -/

mutual

theorem deleteIn_found_eq (tid : String) (n : ComponentSchema) :
    (deleteIn tid n).2 = (findNode n tid).isSome := by
  match n with
  | .mk i t l p s e none =>
    by_cases hi : i = tid <;> simp [deleteIn, findNode, hi]
  | .mk i t l p s e (some cs) =>
    by_cases hi : i = tid
    · simp [deleteIn, findNode, hi]
    · simp [deleteIn, findNode, hi, deleteInList_found_eq tid cs]

theorem deleteInList_found_eq (tid : String) (cs : List ComponentSchema) :
    (deleteInList tid cs).2 = (findNodeList cs tid).isSome := by
  match cs with
  | [] => simp [deleteInList, findNodeList]
  | c :: rest =>
    by_cases hc : c.id = tid
    · simp [deleteInList, hc, findNodeList, findNode_self hc]
    · rw [deleteInList, findNodeList]
      simp only [hc, if_false]
      rw [deleteIn_found_eq tid c]
      match hf : findNode c tid with
      | some r => simp [hf]
      | none => simp [hf, deleteInList_found_eq tid rest]

end

mutual

theorem deleteIn_not_found (tid : String) (n : ComponentSchema)
    (h : findNode n tid = none) : deleteIn tid n = (n, false) := by
  match n with
  | .mk i t l p s e none =>
    by_cases hi : i = tid
    · simp [findNode, hi] at h
    · simp [deleteIn, hi]
  | .mk i t l p s e (some cs) =>
    by_cases hi : i = tid
    · simp [findNode, hi] at h
    · rw [findNode] at h
      simp [hi] at h
      simp [deleteIn, hi, deleteInList_not_found tid cs h]

theorem deleteInList_not_found (tid : String) (cs : List ComponentSchema)
    (h : findNodeList cs tid = none) : deleteInList tid cs = (cs, false) := by
  match cs with
  | [] => simp [deleteInList]
  | c :: rest =>
    rw [findNodeList] at h
    match hc : findNode c tid with
    | some r => rw [hc] at h; exact absurd h (by simp)
    | none =>
      rw [hc] at h
      have hcid : ¬ c.id = tid := by
        intro hid
        rw [findNode_self hid] at hc
        exact Option.noConfusion hc
      simp [deleteInList, hcid, deleteIn_not_found tid c hc,
        deleteInList_not_found tid rest h]

end

theorem deleteIn_root_match (tid : String) (n : ComponentSchema)
    (h : n.id = tid) : (deleteIn tid n).1 = n := by
  match n with
  | .mk i t l p s e none => simp [deleteIn]
  | .mk i t l p s e (some cs) =>
    simp [ComponentSchema.id] at h
    simp [deleteIn, h]

mutual

theorem deleteIn_decomp (tid : String) (n d : ComponentSchema)
    (hid : n.id ≠ tid) (h : findNode n tid = some d) :
    ∃ pre post, pre ≠ [] ∧ allIds n = pre ++ allIds d ++ post ∧
      allIds (deleteIn tid n).1 = pre ++ post := by
  match n with
  | .mk i t l p s e none =>
    have hi : ¬ i = tid := hid
    simp [findNode, hi] at h
  | .mk i t l p s e (some cs) =>
    have hi : ¬ i = tid := hid
    rw [findNode] at h
    simp [hi] at h
    obtain ⟨pre, post, hsplit, hres⟩ := deleteInList_decomp tid cs d h
    refine ⟨i :: pre, post, by simp, ?_, ?_⟩
    · simp [allIds, hsplit]
    · simp [deleteIn, hi, allIds, hres]

theorem deleteInList_decomp (tid : String) (cs : List ComponentSchema)
    (d : ComponentSchema) (h : findNodeList cs tid = some d) :
    ∃ pre post, allIdsList cs = pre ++ allIds d ++ post ∧
      allIdsList (deleteInList tid cs).1 = pre ++ post := by
  match cs with
  | [] => simp [findNodeList] at h
  | c :: rest =>
    rw [findNodeList] at h
    match hc : findNode c tid with
    | some r =>
      rw [hc] at h
      have hrd : r = d := by injection h
      subst hrd
      by_cases hcid : c.id = tid
      · have hcr : r = c := by
          rw [findNode_self hcid] at hc
          injection hc with hh
          exact hh.symm
        subst hcr
        refine ⟨[], allIdsList rest, ?_, ?_⟩
        · simp [allIdsList]
        · simp [deleteInList, hcid]
      · obtain ⟨pre, post, hpne, hsplit, hres⟩ := deleteIn_decomp tid c r hcid hc
        have h2 : (deleteIn tid c).2 = true := by
          rw [deleteIn_found_eq tid c, hc]; rfl
        refine ⟨pre, post ++ allIdsList rest, ?_, ?_⟩
        · simp [allIdsList, hsplit]
        · simp [deleteInList, hcid, h2, allIdsList, hres]
    | none =>
      rw [hc] at h
      obtain ⟨pre, post, hsplit, hres⟩ := deleteInList_decomp tid rest d h
      have hcid : ¬ c.id = tid := by
        intro hid
        rw [findNode_self hid] at hc
        exact Option.noConfusion hc
      have hcdel := deleteIn_not_found tid c hc
      refine ⟨allIds c ++ pre, post, ?_, ?_⟩
      · simp [allIdsList, hsplit]
      · simp [deleteInList, hcid, hcdel, allIdsList, hres]

end

/- ------------------------------------------------------------------
   C7: `deleteComponent`.
   ------------------------------------------------------------------ -/

/-- C7 (counterexample): with node `a` selected, deleting the different node
`b` clears the selection, and deleting a nonexistent id also clears it —
the claim says selection is cleared only when the removed id was selected. -/
theorem c7_counterexample :
    deleteComponent selRoot (some "a") "b" =
      (.mk "root" .page none [] none none
        (some [.mk "a" .text none [] none none none]), none) ∧
    (deleteComponent selRoot (some "a") "b").2 ≠ some "a" ∧
    deleteComponent selRoot (some "a") "zz" = (selRoot, none) :=
  ⟨rfl, by decide, rfl⟩

/-- C7 (amended): `deleteComponent(id)` is a structural no-op when `id` is
the literal `root`, when `id` is not found, or when it names the root node
itself; otherwise it detaches the first matching node with its whole subtree
from its parent's child list (the pre-order id listing loses exactly that
contiguous block).  The selection, however, is set to `null` on every call
with `id` other than the literal `root`, whether or not the removed id was
selected or even present. -/
theorem c7_amended (root : ComponentSchema) (sel : Option String) (did : String) :
    (did = "root" → deleteComponent root sel did = (root, sel)) ∧
    (did ≠ "root" → (deleteComponent root sel did).2 = none) ∧
    (did ≠ "root" → findNode root did = none →
      (deleteComponent root sel did).1 = root) ∧
    (did ≠ "root" → root.id = did → (deleteComponent root sel did).1 = root) ∧
    (did ≠ "root" → root.id ≠ did → ∀ d, findNode root did = some d →
      ∃ pre post, pre ≠ [] ∧ allIds root = pre ++ allIds d ++ post ∧
        allIds (deleteComponent root sel did).1 = pre ++ post) := by
  refine ⟨fun h => by simp [deleteComponent, h], fun h => by simp [deleteComponent, h],
    fun h hn => ?_, fun h hr => ?_, fun h hr d hd => ?_⟩
  · simp [deleteComponent, h, (deleteIn_not_found did root hn)]
  · simp [deleteComponent, h, deleteIn_root_match did root hr]
  · simpa [deleteComponent, h] using deleteIn_decomp did root d hr hd

/-- Witness for the amended C7 at concrete inputs: deleting `b` while `a` is
selected clears the selection and removes exactly `b`'s block from the
pre-order id list; deleting a missing id changes nothing structurally. -/
theorem c7_amended_witness :
    ("b" ≠ "root" ∧ (deleteComponent selRoot (some "a") "b").2 = none) ∧
    ("zz" ≠ "root" ∧ findNode selRoot "zz" = none ∧
      (deleteComponent selRoot (some "x") "zz").1 = selRoot) ∧
    ("b" ≠ "root" ∧ selRoot.id ≠ "b" ∧
      findNode selRoot "b" = some (.mk "b" .text none [] none none none) ∧
      ∃ pre post, pre ≠ [] ∧
        allIds selRoot = pre ++ allIds (.mk "b" .text none [] none none none) ++ post ∧
        allIds (deleteComponent selRoot (some "a") "b").1 = pre ++ post) :=
  ⟨⟨by decide, (c7_amended selRoot (some "a") "b").2.1 (by decide)⟩,
   ⟨by decide, rfl, (c7_amended selRoot (some "x") "zz").2.2.1 (by decide) rfl⟩,
   ⟨by decide, by decide, rfl,
    (c7_amended selRoot (some "a") "b").2.2.2.2 (by decide) (by decide) _ rfl⟩⟩


/- ------------------------------------------------------------------
   C2: the webhook `context` field.
   ------------------------------------------------------------------ -/

/-- C2 (counterexample): starting from an empty store, the list
`[setState(k,1), n8n-webhook]` sends a request whose `context` field is the
empty object — yet the runtime data context at the moment the webhook
executes (after the first action) maps `k` to `"1"`.  The `context` field
is the snapshot taken before the first action, not the context at call
time. -/
theorem c2_counterexample :
    (runActions [setStateAction "k" "1", plainHookAction] [] []
        (fun _ => .ok .null) (fun _ => none)).2 =
      [⟨.str "u", .str "POST", some (.obj [("context", .obj [])])⟩] ∧
    (runActions [setStateAction "k" "1"] [] []
        (fun _ => .ok .null) (fun _ => none)).1 = [("k", .str "1")] ∧
    JVal.obj [] ≠ JVal.obj [("k", .str "1")] :=
  ⟨rfl, rfl, by simp⟩

theorem runActionsGo_context_snapshot (context globalData : Obj)
    (env : Nat → FetchOutcome) (jp : String → Option JVal) :
    ∀ (acts : List Action) (store : Obj) (k : Nat) (r : Request),
      r ∈ (runActionsGo context globalData env jp acts store k).2 →
      ∀ fields, r.body = some (.obj fields) →
        objGet fields "context" = .obj globalData := by
  intro acts
  induction acts with
  | nil => intro store k r hr; simp [runActionsGo] at hr
  | cons a rest ih =>
    intro store k r hr fields hb
    obtain ⟨aid, aty, acfg⟩ := a
    cases aty with
    | consoleLog => exact ih store k r (by simpa [runActionsGo] using hr) fields hb
    | alert => exact ih store k r (by simpa [runActionsGo] using hr) fields hb
    | setStateAct => exact ih _ k r (by simpa [runActionsGo] using hr) fields hb
    | n8nWebhook =>
      rw [runActionsGo] at hr
      simp only [] at hr
      rcases henv : env k with json | _ | _ <;> rw [henv] at hr <;>
        simp only [List.mem_cons] at hr <;>
        rcases hr with hreq | htail
      · subst hreq
        by_cases hget : isGet (jsOr (objGet acfg "method") (.str "POST")) <;>
          simp only [hget, if_true, if_false, ite_true, ite_false] at hb
        · exact Option.noConfusion hb
        · have hf : fields = setKey
              (spreadToObj (webhookBodyVal jp (objGet acfg "body") context))
              "context" (.obj globalData) := by
            injection hb with hb1
            injection hb1 with hb2
            exact hb2.symm
          rw [hf]
          exact objGet_setKey_self _ _ _
      · exact ih _ (k + 1) r htail fields hb
      · subst hreq
        by_cases hget : isGet (jsOr (objGet acfg "method") (.str "POST")) <;>
          simp only [hget, if_true, if_false, ite_true, ite_false] at hb
        · exact Option.noConfusion hb
        · have hf : fields = setKey
              (spreadToObj (webhookBodyVal jp (objGet acfg "body") context))
              "context" (.obj globalData) := by
            injection hb with hb1
            injection hb1 with hb2
            exact hb2.symm
          rw [hf]
          exact objGet_setKey_self _ _ _
      · exact ih _ (k + 1) r htail fields hb
      · subst hreq
        by_cases hget : isGet (jsOr (objGet acfg "method") (.str "POST")) <;>
          simp only [hget, if_true, if_false, ite_true, ite_false] at hb
        · exact Option.noConfusion hb
        · have hf : fields = setKey
              (spreadToObj (webhookBodyVal jp (objGet acfg "body") context))
              "context" (.obj globalData) := by
            injection hb with hb1
            injection hb1 with hb2
            exact hb2.symm
          rw [hf]
          exact objGet_setKey_self _ _ _
      · exact ih _ (k + 1) r htail fields hb

/-- C2 (amended): the `context` field of every request body a single
`runActions` pass sends equals the runtime data context as it was when the
pass started — the snapshot captured before the first action — not the
context at the moment the webhook executes; a `setState` earlier in the same
list is NOT reflected. -/
theorem c2_amended (actions : List Action) (localContext storeData : Obj)
    (env : Nat → FetchOutcome) (jp : String → Option JVal) (r : Request)
    (hr : r ∈ (runActions actions localContext storeData env jp).2)
    (fields : Obj) (hb : r.body = some (.obj fields)) :
    objGet fields "context" = .obj storeData := by
  match actions with
  | [] => simp [runActions] at hr
  | a :: rest =>
    exact runActionsGo_context_snapshot (mergeObj storeData localContext)
      storeData env jp (a :: rest) storeData 0 r hr fields hb

/-- Witness for the amended C2: the single request of the counterexample run
indeed carries the initial (empty) store as its `context` field. -/
theorem c2_amended_witness :
    ((⟨.str "u", .str "POST", some (.obj [("context", .obj [])])⟩ : Request) ∈
      (runActions [setStateAction "k" "1", plainHookAction] [] []
        (fun _ => .ok .null) (fun _ => none)).2) ∧
    objGet [("context", .obj [])] "context" = .obj [] :=
  ⟨List.mem_singleton.mpr rfl,
   c2_amended [setStateAction "k" "1", plainHookAction] [] []
     (fun _ => .ok .null) (fun _ => none) _ (List.mem_singleton.mpr rfl) _ rfl⟩

/- ------------------------------------------------------------------
   C8: per-action failure isolation.
   ------------------------------------------------------------------ -/

/-- C8: a webhook action whose `fetch` rejects or whose response JSON parse
throws is caught at that action: the store is left exactly as it was before
the action and the remaining actions still run (the run of the tail proceeds
from the unchanged store); moreover, whatever the outcomes, every webhook
entry of a list issues its request — no failure aborts the rest of the
list, and `runActions` itself never propagates an exception (it is total by
construction). -/
theorem c8_failure_isolated (context globalData : Obj) (env : Nat → FetchOutcome)
    (jp : String → Option JVal) (a : Action) (rest : List Action)
    (store : Obj) (k : Nat) (hty : a.type = .n8nWebhook)
    (hfail : env k = .netFail ∨ env k = .jsonFail) :
    (∃ req, runActionsGo context globalData env jp (a :: rest) store k =
      ((runActionsGo context globalData env jp rest store (k + 1)).1,
        req :: (runActionsGo context globalData env jp rest store (k + 1)).2)) ∧
    (∀ (acts : List Action) (store' : Obj) (k' : Nat),
      ((runActionsGo context globalData env jp acts store' k').2).length =
        webhookCount acts) := by
  constructor
  · obtain ⟨aid, aty, acfg⟩ := a
    have haty : aty = .n8nWebhook := hty
    subst haty
    rcases hfail with h | h <;> rw [runActionsGo] <;> rw [h] <;> exact ⟨_, rfl⟩
  · intro acts
    induction acts with
    | nil => intro store' k'; simp [runActionsGo, webhookCount]
    | cons b bs ih =>
      intro store' k'
      obtain ⟨bid, bty, bcfg⟩ := b
      cases bty with
      | consoleLog => simp [runActionsGo, webhookCount, List.countP_cons, ih]
      | alert => simp [runActionsGo, webhookCount, List.countP_cons, ih]
      | setStateAct => simp [runActionsGo, webhookCount, List.countP_cons, ih]
      | n8nWebhook =>
        rcases henv : env k' with json | _ | _ <;>
          simp [runActionsGo, henv, webhookCount, List.countP_cons, ih]

/-- Witness for C8: with a rejecting `fetch`, the concrete failing webhook
leaves the store unchanged and the following `setState` still runs. -/
theorem c8_failure_isolated_witness :
    plainHookAction.type = ActionType.n8nWebhook ∧
    (∃ req, runActionsGo [] [] (fun _ => FetchOutcome.netFail) (fun _ => none)
        (plainHookAction :: [setStateAction "k" "2"]) [] 0 =
      ((runActionsGo [] [] (fun _ => FetchOutcome.netFail) (fun _ => none)
          [setStateAction "k" "2"] [] (0 + 1)).1,
        req :: (runActionsGo [] [] (fun _ => FetchOutcome.netFail) (fun _ => none)
          [setStateAction "k" "2"] [] (0 + 1)).2)) :=
  ⟨rfl, (c8_failure_isolated [] [] (fun _ => FetchOutcome.netFail) (fun _ => none)
    plainHookAction [setStateAction "k" "2"] [] 0 rfl (Or.inl rfl)).1⟩

/- ------------------------------------------------------------------
   C9: strict sequential ordering.
   ------------------------------------------------------------------ -/

/-- C9: one pass of the action loop is strictly sequential: running
`xs ++ ys` equals running `xs` to completion and only then running `ys` from
the store `xs` produced (each webhook's asynchronous work is awaited before
the next action starts); in particular for
`[setState(k,1), n8n-webhook, setState(k,2)]` the final value of `k` is
`"2"` — the webhook settles (including any response-mapping write) before
the third action, so it can never clobber it. -/
theorem c9_strict_order (context globalData : Obj) (env : Nat → FetchOutcome)
    (jp : String → Option JVal) :
    (∀ (xs ys : List Action) (store : Obj) (k : Nat),
      runActionsGo context globalData env jp (xs ++ ys) store k =
        ((runActionsGo context globalData env jp ys
            (runActionsGo context globalData env jp xs store k).1
            (k + webhookCount xs)).1,
          (runActionsGo context globalData env jp xs store k).2 ++
            (runActionsGo context globalData env jp ys
              (runActionsGo context globalData env jp xs store k).1
              (k + webhookCount xs)).2)) ∧
    (∀ (whook : Action) (storeData localContext : Obj),
      whook.type = .n8nWebhook →
      objGet (runActions [setStateAction "k" "1", whook, setStateAction "k" "2"]
          localContext storeData env jp).1 "k" = .str "2") := by
  constructor
  · intro xs
    induction xs with
    | nil => intro ys store k; simp [runActionsGo, webhookCount]
    | cons b bs ih =>
      intro ys store k
      obtain ⟨bid, bty, bcfg⟩ := b
      cases bty with
      | consoleLog => simpa [runActionsGo, webhookCount, List.countP_cons] using ih ys store k
      | alert => simpa [runActionsGo, webhookCount, List.countP_cons] using ih ys store k
      | setStateAct => simpa [runActionsGo, webhookCount, List.countP_cons] using ih ys _ k
      | n8nWebhook =>
        rcases henv : env k with json | _ | _ <;>
          simp [runActionsGo, henv, webhookCount, List.countP_cons, Nat.add_comm,
            Nat.add_assoc, Nat.add_left_comm, ih]
  · intro whook storeData localContext hty
    obtain ⟨wid, wty, wcfg⟩ := whook
    have haty : wty = .n8nWebhook := hty
    subst haty
    rcases henv : env 0 with json | _ | _ <;>
      simp only [runActions, runActionsGo, setStateAction, henv] <;>
      exact objGet_setKey_self _ _ _

/-- Witness for C9's ordering at a concrete webhook: the final value of `k`
reflects the third action. -/
theorem c9_strict_order_witness :
    plainHookAction.type = ActionType.n8nWebhook ∧
    objGet (runActions [setStateAction "k" "1", plainHookAction, setStateAction "k" "2"]
      [] [] (fun _ => FetchOutcome.ok JVal.null) (fun _ => none)).1 "k" = JVal.str "2" :=
  ⟨rfl, (c9_strict_order [] [] (fun _ => FetchOutcome.ok JVal.null) (fun _ => none)).2
    plainHookAction [] [] rfl⟩

/- ------------------------------------------------------------------
   C10: the merged context is computed once.
   ------------------------------------------------------------------ -/

/-- C10: within one `runActions` pass the merged evaluation context is
computed before the first action and never refreshed: a template evaluated
by a later action of the same list still sees the pre-pass value of a key a
preceding `setState` wrote (first conjunct — the written `"A"` is invisible,
the stale `objGet store0 "k"` is what lands in `r`), while a subsequent,
separate invocation does observe the write through the live store (second
conjunct). -/
theorem c10_context_merged_once (store0 : Obj) (env env' : Nat → FetchOutcome)
    (jp jp' : String → Option JVal) :
    objGet (runActions
        [setStateAction "k" "A", setStateAction "r" "\x7b\x7b k \x7d\x7d"]
        [] store0 env jp).1 "r" = objGet store0 "k" ∧
    objGet (runActions [setStateAction "r" "\x7b\x7b k \x7d\x7d"] []
        (runActions [setStateAction "k" "A"] [] store0 env jp).1 env' jp').1 "r" =
      .str "A" :=
  ⟨(objGet_setKey_self _ "r" _).trans (objGetSeg_eq_objGet store0 "k"),
   (objGet_setKey_self _ "r" _).trans ((objGetSeg_eq_objGet _ "k").trans
     (objGet_setKey_self store0 "k" (.str "A")))⟩


/- ------------------------------------------------------------------
   `removeNode` / `insertNode` lemmas (for C1).
   ------------------------------------------------------------------ -/

theorem extractById_some (did : String) (cs : List ComponentSchema) :
    ∀ cs' d, extractById did cs = some (cs', d) →
      d.id = did ∧ ∃ l1 l2, cs = l1 ++ d :: l2 ∧ cs' = l1 ++ l2 ∧
        ∀ e ∈ l1, e.id ≠ did := by
  induction cs with
  | nil => intro cs' d h; simp [extractById] at h
  | cons c rest ih =>
    intro cs' d h
    rw [extractById] at h
    by_cases hc : c.id = did
    · rw [if_pos hc] at h
      obtain ⟨h1, h2⟩ := Prod.mk.injEq .. ▸ Option.some.injEq .. ▸ h
      refine ⟨by rw [← h2]; exact hc, [], rest, by rw [h2]; rfl, by rw [h1]; rfl, by simp⟩
    · rw [if_neg hc] at h
      match hrest : extractById did rest with
      | none => rw [hrest] at h; simp at h
      | some (r1, r2) =>
        rw [hrest] at h
        simp only [Option.map_some'] at h
        obtain ⟨h1, h2⟩ := Prod.mk.injEq .. ▸ Option.some.injEq .. ▸ h
        obtain ⟨hid, l1, l2, hsplit, hr1, hl1⟩ := ih r1 r2 hrest
        subst h2
        refine ⟨hid, c :: l1, l2, by rw [hsplit]; rfl, by rw [← h1, hr1]; rfl, ?_⟩
        intro e he
        rcases List.mem_cons.mp he with rfl | he'
        · exact hc
        · exact hl1 e he'

theorem extractById_none (did : String) (cs : List ComponentSchema)
    (h : extractById did cs = none) : ∀ c ∈ cs, c.id ≠ did := by
  induction cs with
  | nil => simp
  | cons c rest ih =>
    rw [extractById] at h
    by_cases hc : c.id = did
    · rw [if_pos hc] at h; exact Option.noConfusion h
    · rw [if_neg hc] at h
      intro e he
      rcases List.mem_cons.mp he with rfl | he'
      · exact hc
      · match hrest : extractById did rest with
        | none => exact ih hrest e he'
        | some (r1, r2) => rw [hrest] at h; exact Option.noConfusion h

mutual

theorem removeNode_decomp (did : String) (n : ComponentSchema) :
    ∀ n' d, removeNode did n = some (n', d) →
      d.id = did ∧ ∃ pre post, pre ≠ [] ∧ allIds n = pre ++ allIds d ++ post ∧
        allIds n' = pre ++ post := by
  match n with
  | .mk i t l p s e none => intro n' d h; simp [removeNode] at h
  | .mk i t l p s e (some cs) =>
    intro n' d h
    rw [removeNode] at h
    match hext : extractById did cs with
    | some (cs2, d2) =>
      rw [hext] at h
      obtain ⟨h1, h2⟩ := Prod.mk.injEq .. ▸ Option.some.injEq .. ▸ h
      obtain ⟨hid, l1, l2, hsplit, hcs2, _⟩ := extractById_some did cs cs2 d2 hext
      subst h2
      refine ⟨hid, i :: allIdsList l1, allIdsList l2, by simp, ?_, ?_⟩
      · simp [allIds, hsplit, allIdsList_append, allIdsList]
      · rw [← h1]
        simp [allIds, hcs2, allIdsList_append]
    | none =>
      rw [hext] at h
      match hrem : removeNodeList did cs with
      | none => rw [hrem] at h; exact Option.noConfusion h
      | some (cs2, d2) =>
        rw [hrem] at h
        obtain ⟨h1, h2⟩ := Prod.mk.injEq .. ▸ Option.some.injEq .. ▸ h
        obtain ⟨hid, pre, post, hsplit, hcs2⟩ := removeNodeList_decomp did cs cs2 d2 hrem
        subst h2
        refine ⟨hid, i :: pre, post, by simp, ?_, ?_⟩
        · simp [allIds, hsplit]
        · rw [← h1]; simp [allIds, hcs2]

theorem removeNodeList_decomp (did : String) (cs : List ComponentSchema) :
    ∀ cs' d, removeNodeList did cs = some (cs', d) →
      d.id = did ∧ ∃ pre post, allIdsList cs = pre ++ allIds d ++ post ∧
        allIdsList cs' = pre ++ post := by
  match cs with
  | [] => intro cs' d h; simp [removeNodeList] at h
  | c :: rest =>
    intro cs' d h
    rw [removeNodeList] at h
    match hc : removeNode did c with
    | some (c2, d2) =>
      rw [hc] at h
      obtain ⟨h1, h2⟩ := Prod.mk.injEq .. ▸ Option.some.injEq .. ▸ h
      obtain ⟨hid, pre, post, hpne, hsplit, hc2⟩ := removeNode_decomp did c c2 d2 hc
      subst h2
      refine ⟨hid, pre, post ++ allIdsList rest, ?_, ?_⟩
      · simp [allIdsList, hsplit]
      · rw [← h1]; simp [allIdsList, hc2]
    | none =>
      rw [hc] at h
      match hrest : removeNodeList did rest with
      | none => rw [hrest] at h; simp at h
      | some (r1, r2) =>
        rw [hrest] at h
        simp only [Option.map_some'] at h
        obtain ⟨h1, h2⟩ := Prod.mk.injEq .. ▸ Option.some.injEq .. ▸ h
        obtain ⟨hid, pre, post, hsplit, hr1⟩ := removeNodeList_decomp did rest r1 r2 hrest
        subst h2
        refine ⟨hid, allIds c ++ pre, post, ?_, ?_⟩
        · simp [allIdsList, hsplit]
        · rw [← h1]; simp [allIdsList, hr1]

end


mutual

theorem removeNode_none_not_mem (did : String) (n : ComponentSchema)
    (h : removeNode did n = none) : did ∉ allIdsList (childList n) := by
  match n with
  | .mk i t l p s e none => simp [childList, ComponentSchema.children, allIdsList]
  | .mk i t l p s e (some cs) =>
    rw [removeNode] at h
    match hext : extractById did cs with
    | some (cs2, d2) => rw [hext] at h; exact Option.noConfusion h
    | none =>
      rw [hext] at h
      match hrem : removeNodeList did cs with
      | some (cs2, d2) => rw [hrem] at h; exact Option.noConfusion h
      | none =>
        have hdirect := extractById_none did cs hext
        have hdeep := removeNodeList_none_not_mem did cs hrem
        show did ∉ allIdsList cs
        intro hmem
        obtain ⟨c, hcin, hcid⟩ := mem_allIdsList.mp hmem
        rw [allIds_eq_cons c] at hcid
        rcases List.mem_cons.mp hcid with heq | hdeepmem
        · exact hdirect c hcin heq.symm
        · exact hdeep c hcin hdeepmem

theorem removeNodeList_none_not_mem (did : String) (cs : List ComponentSchema)
    (h : removeNodeList did cs = none) :
    ∀ c ∈ cs, did ∉ allIdsList (childList c) := by
  match cs with
  | [] => simp
  | c :: rest =>
    rw [removeNodeList] at h
    match hc : removeNode did c with
    | some (c2, d2) => rw [hc] at h; exact Option.noConfusion h
    | none =>
      rw [hc] at h
      match hrest : removeNodeList did rest with
      | some (r1, r2) => rw [hrest] at h; simp at h
      | none =>
        intro e he
        rcases List.mem_cons.mp he with rfl | he'
        · exact removeNode_none_not_mem did e hc
        · exact removeNodeList_none_not_mem did rest hrest e he'

end

theorem findNodeList_append_skip (tid : String) (l1 l2 : List ComponentSchema)
    (h : ∀ e ∈ l1, findNode e tid = none) :
    findNodeList (l1 ++ l2) tid = findNodeList l2 tid := by
  induction l1 with
  | nil => rfl
  | cons c rest ih =>
    have hc := h c (List.mem_cons_self c rest)
    rw [List.cons_append, findNodeList, hc]
    exact ih (fun e he => h e (List.mem_cons_of_mem c he))

mutual

theorem removeNode_findNode (did : String) (n : ComponentSchema) :
    ∀ n' d, (allIds n).count did ≤ 1 → removeNode did n = some (n', d) →
      findNode n did = some d := by
  match n with
  | .mk i t l p s e none => intro n' d _ h; simp [removeNode] at h
  | .mk i t l p s e (some cs) =>
    intro n' d hcount h
    obtain ⟨hdid, pre, post, hpne, hsplit, -⟩ :=
      removeNode_decomp did (.mk i t l p s e (some cs)) n' d h
    have hdin : did ∈ allIds d := by rw [← hdid]; exact id_mem_allIds d
    have hsplit' : i :: allIdsList cs = pre ++ allIds d ++ post := by
      rw [← hsplit]; rfl
    have hin_cs : did ∈ allIdsList cs := by
      rcases pre with _ | ⟨phead, ptail⟩
      · exact absurd rfl hpne
      · simp only [List.cons_append, List.cons.injEq] at hsplit'
        rw [hsplit'.2]
        simp [hdin]
    have hcount' : List.count did (i :: allIdsList cs) ≤ 1 := hcount
    have hge1 : 1 ≤ (allIdsList cs).count did := List.one_le_count_iff.mpr hin_cs
    have hi : ¬ i = did := by
      intro hieq
      subst hieq
      rw [List.count_cons_self] at hcount'
      omega
    have hcount_cs : (allIdsList cs).count did ≤ 1 := by
      rw [List.count_cons] at hcount'
      omega
    rw [findNode, if_neg hi]
    rw [removeNode] at h
    match hext : extractById did cs with
    | some (cs2, d2) =>
      rw [hext] at h
      have hh := Option.some.inj h
      injection hh with hh1 hh2
      rw [← hh2]
      obtain ⟨hid2, l1, l2, hsplit2, -, -⟩ := extractById_some did cs cs2 d2 hext
      have hdin2 : did ∈ allIds d2 := by rw [← hid2]; exact id_mem_allIds d2
      have hl1none : ∀ x ∈ l1, findNode x did = none := by
        intro x hx
        apply findNode_eq_none_of_not_mem
        intro hmem
        have hcnt2 : 2 ≤ (allIdsList cs).count did := by
          rw [hsplit2, allIdsList_append, allIdsList]
          rw [List.count_append, List.count_append]
          have he1 : 1 ≤ (allIdsList l1).count did :=
            List.one_le_count_iff.mpr (mem_allIdsList.mpr ⟨x, hx, hmem⟩)
          have he2 : 1 ≤ (allIds d2).count did := List.one_le_count_iff.mpr hdin2
          omega
        omega
      rw [hsplit2, findNodeList_append_skip did l1 _ hl1none, findNodeList,
        findNode_self hid2]
    | none =>
      rw [hext] at h
      match hrem : removeNodeList did cs with
      | none => rw [hrem] at h; exact Option.noConfusion h
      | some (cs2, d2) =>
        rw [hrem] at h
        have hh := Option.some.inj h
        injection hh with hh1 hh2
        rw [← hh2]
        exact removeNodeList_findNode did cs cs2 d2 hcount_cs
          (extractById_none did cs hext) hrem

theorem removeNodeList_findNode (did : String) (cs : List ComponentSchema) :
    ∀ cs' d, (allIdsList cs).count did ≤ 1 → (∀ c ∈ cs, c.id ≠ did) →
      removeNodeList did cs = some (cs', d) → findNodeList cs did = some d := by
  match cs with
  | [] => intro cs' d _ _ h; simp [removeNodeList] at h
  | c :: rest =>
    intro cs' d hcount hids h
    have hccons : allIdsList (c :: rest) = allIds c ++ allIdsList rest := rfl
    have hcount_c : (allIds c).count did ≤ 1 := by
      rw [hccons, List.count_append] at hcount; omega
    have hcount_rest : (allIdsList rest).count did ≤ 1 := by
      rw [hccons, List.count_append] at hcount; omega
    rw [removeNodeList] at h
    match hc : removeNode did c with
    | some (c2, d2) =>
      rw [hc] at h
      have hh := Option.some.inj h
      injection hh with hh1 hh2
      rw [← hh2]
      rw [findNodeList, removeNode_findNode did c c2 d2 hcount_c hc]
    | none =>
      rw [hc] at h
      match hrest : removeNodeList did rest with
      | none => rw [hrest] at h; simp at h
      | some (r1, r2) =>
        rw [hrest] at h
        simp only [Option.map_some'] at h
        have hh := Option.some.inj h
        injection hh with hh1 hh2
        rw [← hh2]
        have hcnone : findNode c did = none := by
          apply findNode_eq_none_of_not_mem
          rw [allIds_eq_cons]
          intro hmem
          rcases List.mem_cons.mp hmem with heq | hdeep
          · exact hids c (List.mem_cons_self c rest) heq.symm
          · exact removeNode_none_not_mem did c hc hdeep
        rw [findNodeList, hcnone]
        exact removeNodeList_findNode did rest r1 r2 hcount_rest
          (fun x hx => hids x (List.mem_cons_of_mem c hx)) hrest

end


theorem clampIdx_le (index : Int) (len : Nat) : clampIdx index len ≤ len := by
  unfold clampIdx
  omega

theorem clampIdx_cast (index : Int) (len : Nat) :
    (clampIdx index len : Int) = min (max index 0) (len : Int) := by
  unfold clampIdx
  omega

theorem insertIdx_eq_take_cons_drop {α : Type _} (l : List α) (k : Nat) (x : α)
    (h : k ≤ l.length) : l.insertIdx k x = l.take k ++ x :: l.drop k := by
  induction l generalizing k with
  | nil =>
    have hk : k = 0 := Nat.le_zero.mp h
    subst hk
    simp [List.insertIdx_zero]
  | cons a as ih =>
    cases k with
    | zero => simp [List.insertIdx_zero]
    | succ m => simp [List.insertIdx_succ_cons, ih m (by simpa using h)]

theorem setChildren_children (n : ComponentSchema) (co : Option (List ComponentSchema)) :
    (setChildren n co).children = co := by
  match n with
  | .mk i t l p s e c => rfl

theorem setChildren_id (n : ComponentSchema) (co : Option (List ComponentSchema)) :
    (setChildren n co).id = n.id := by
  match n with
  | .mk i t l p s e c => rfl

mutual

theorem insertNode_none_findNode (tid : String) (index : Int)
    (dragged : ComponentSchema) (n : ComponentSchema)
    (h : insertNode tid index dragged n = none) : findNode n tid = none := by
  match n with
  | .mk i t l p s e none =>
    rw [insertNode] at h
    by_cases hi : i = tid
    · rw [if_pos hi] at h; exact Option.noConfusion h
    · rw [findNode, if_neg hi]
  | .mk i t l p s e (some cs) =>
    rw [insertNode] at h
    by_cases hi : i = tid
    · rw [if_pos hi] at h; exact Option.noConfusion h
    · rw [if_neg hi] at h
      rw [findNode, if_neg hi]
      match hl : insertNodeList tid index dragged cs with
      | some cs2 => rw [hl] at h; exact Option.noConfusion h
      | none => exact insertNodeList_none_findNode tid index dragged cs hl

theorem insertNodeList_none_findNode (tid : String) (index : Int)
    (dragged : ComponentSchema) (cs : List ComponentSchema)
    (h : insertNodeList tid index dragged cs = none) : findNodeList cs tid = none := by
  match cs with
  | [] => rfl
  | c :: rest =>
    rw [insertNodeList] at h
    match hc : insertNode tid index dragged c with
    | some c2 => rw [hc] at h; exact Option.noConfusion h
    | none =>
      rw [hc] at h
      match hrest : insertNodeList tid index dragged rest with
      | some r1 => rw [hrest] at h; exact Option.noConfusion h
      | none =>
        rw [findNodeList, insertNode_none_findNode tid index dragged c hc]
        exact insertNodeList_none_findNode tid index dragged rest hrest

end

mutual

theorem insertNode_some_spec (tid : String) (index : Int)
    (dragged : ComponentSchema) (n : ComponentSchema) :
    ∀ r, insertNode tid index dragged n = some r →
      ∃ tgt, findNode n tid = some tgt ∧
        findNode r tid = some (setChildren tgt (some
          ((childList tgt).insertIdx (clampIdx index (childList tgt).length) dragged))) ∧
        ∃ p q, p ≠ [] ∧ allIds n = p ++ q ∧ allIds r = p ++ allIds dragged ++ q := by
  match n with
  | .mk i t l p s e none =>
    intro r h
    rw [insertNode] at h
    by_cases hi : i = tid
    · rw [if_pos hi] at h
      have hr := Option.some.inj h
      refine ⟨.mk i t l p s e none, findNode_self hi, ?_, [i], [], by simp, rfl, ?_⟩
      · rw [← hr]
        have hins : (childList (ComponentSchema.mk i t l p s e none)).insertIdx
            (clampIdx index (childList (ComponentSchema.mk i t l p s e none)).length)
            dragged = [dragged] := by
          show ([] : List ComponentSchema).insertIdx (clampIdx index 0) dragged = [dragged]
          have h0 : clampIdx index 0 = 0 := by unfold clampIdx; omega
          rw [h0, List.insertIdx_zero]
        rw [hins]
        exact findNode_self hi
      · rw [← hr]
        show i :: allIdsList [dragged] = [i] ++ allIds dragged ++ []
        simp [allIdsList]
    · rw [if_neg hi] at h; exact Option.noConfusion h
  | .mk i t l p s e (some cs) =>
    intro r h
    rw [insertNode] at h
    by_cases hi : i = tid
    · rw [if_pos hi] at h
      have hr := Option.some.inj h
      have hk : clampIdx index cs.length ≤ cs.length := clampIdx_le index cs.length
      refine ⟨.mk i t l p s e (some cs), findNode_self hi, ?_, ?_⟩
      · rw [← hr]
        exact findNode_self hi
      · refine ⟨i :: allIdsList (cs.take (clampIdx index cs.length)),
          allIdsList (cs.drop (clampIdx index cs.length)), by simp, ?_, ?_⟩
        · show i :: allIdsList cs = _
          rw [List.cons_append]
          have : allIdsList cs = allIdsList (cs.take (clampIdx index cs.length)) ++
              allIdsList (cs.drop (clampIdx index cs.length)) := by
            rw [← allIdsList_append, List.take_append_drop]
          rw [this]
        · rw [← hr]
          show i :: allIdsList (cs.insertIdx (clampIdx index cs.length) dragged) = _
          rw [insertIdx_eq_take_cons_drop cs (clampIdx index cs.length) dragged hk]
          rw [allIdsList_append, allIdsList]
          simp [List.append_assoc]
    · rw [if_neg hi] at h
      match hl : insertNodeList tid index dragged cs with
      | none => rw [hl] at h; exact Option.noConfusion h
      | some cs2 =>
        rw [hl] at h
        simp only [Option.map_some'] at h
        have hr := Option.some.inj h
        obtain ⟨tgt, hf, hf2, p, q, hsplit, hids⟩ :=
          insertNodeList_some_spec tid index dragged cs cs2 hl
        refine ⟨tgt, ?_, ?_, i :: p, q, by simp, ?_, ?_⟩
        · rw [findNode, if_neg hi]; exact hf
        · rw [← hr, findNode, if_neg hi]; exact hf2
        · show i :: allIdsList cs = _
          rw [hsplit]; rfl
        · rw [← hr]
          show i :: allIdsList cs2 = _
          rw [hids]; rfl

theorem insertNodeList_some_spec (tid : String) (index : Int)
    (dragged : ComponentSchema) (cs : List ComponentSchema) :
    ∀ cs', insertNodeList tid index dragged cs = some cs' →
      ∃ tgt, findNodeList cs tid = some tgt ∧
        findNodeList cs' tid = some (setChildren tgt (some
          ((childList tgt).insertIdx (clampIdx index (childList tgt).length) dragged))) ∧
        ∃ p q, allIdsList cs = p ++ q ∧ allIdsList cs' = p ++ allIds dragged ++ q := by
  match cs with
  | [] => intro cs' h; simp [insertNodeList] at h
  | c :: rest =>
    intro cs' h
    rw [insertNodeList] at h
    match hc : insertNode tid index dragged c with
    | some c2 =>
      rw [hc] at h
      have hr := Option.some.inj h
      obtain ⟨tgt, hf, hf2, p, q, hpne, hsplit, hids⟩ :=
        insertNode_some_spec tid index dragged c c2 hc
      refine ⟨tgt, ?_, ?_, p, q ++ allIdsList rest, ?_, ?_⟩
      · rw [findNodeList, hf]
      · rw [← hr, findNodeList, hf2]
      · show allIds c ++ allIdsList rest = _
        rw [hsplit]; simp [List.append_assoc]
      · rw [← hr]
        show allIds c2 ++ allIdsList rest = _
        rw [hids]; simp [List.append_assoc]
    | none =>
      rw [hc] at h
      match hrest : insertNodeList tid index dragged rest with
      | none => rw [hrest] at h; exact Option.noConfusion h
      | some r1 =>
        rw [hrest] at h
        simp only [Option.map_some'] at h
        have hr := Option.some.inj h
        obtain ⟨tgt, hf, hf2, p, q, hsplit, hids⟩ :=
          insertNodeList_some_spec tid index dragged rest r1 hrest
        have hcnone : findNode c tid = none := insertNode_none_findNode tid index dragged c hc
        refine ⟨tgt, ?_, ?_, allIds c ++ p, q, ?_, ?_⟩
        · rw [findNodeList, hcnone]; exact hf
        · rw [← hr, findNodeList, hcnone]; exact hf2
        · show allIds c ++ allIdsList rest = _
          rw [hsplit]; simp [List.append_assoc]
        · rw [← hr]
          show allIds c ++ allIdsList r1 = _
          rw [hids]; simp [List.append_assoc]

end


/- ------------------------------------------------------------------
   C1: `moveComponentTo` never orphans the dragged subtree.
   ------------------------------------------------------------------ -/

/-- C1: for every tree with unique ids, `moveComponentTo(dragId, targetId,
index)` either leaves the tree identical (all the failure guards: dragging
`root`, dragging onto itself, a missing drag id, or a target unreachable
after removal — e.g. inside the dragged subtree) or the dragged subtree
reappears intact, exactly once, as the child of the target node at the index
clamped into `[0, targetChildCount]`. -/
theorem c1_move_no_orphan (root : ComponentSchema) (dragId targetId : String)
    (index : Int) (hnd : (allIds root).Nodup) :
    moveComponentTo root dragId targetId index = root ∨
    ∃ dragged tgt cs k,
      findNode root dragId = some dragged ∧
      findNode (moveComponentTo root dragId targetId index) targetId = some tgt ∧
      tgt.children = some cs ∧
      cs.get? k = some dragged ∧
      (k : Int) = min (max index 0) ((cs.length : Int) - 1) ∧
      (allIds (moveComponentTo root dragId targetId index)).count dragId = 1 := by
  by_cases h1 : dragId = "root"
  · left; simp [moveComponentTo, h1]
  by_cases h2 : dragId = targetId
  · left; simp [moveComponentTo, h1, h2]
  rcases hrem : removeNode dragId root with _ | ⟨root', dragged⟩
  · left; simp [moveComponentTo, h1, h2, hrem]
  rcases hins : insertNode targetId index dragged root' with _ | r
  · left; simp [moveComponentTo, h1, h2, hrem, hins]
  right
  have hmv : moveComponentTo root dragId targetId index = r := by
    simp [moveComponentTo, h1, h2, hrem, hins]
  rw [hmv]
  obtain ⟨hdid, pre, post, hpne, hsplit, hroot'⟩ :=
    removeNode_decomp dragId root root' dragged hrem
  have hcount1 : (allIds root).count dragId ≤ 1 :=
    List.nodup_iff_count_le_one.mp hnd dragId
  have hfind : findNode root dragId = some dragged :=
    removeNode_findNode dragId root root' dragged hcount1 hrem
  obtain ⟨tgt, htf, htf2, p, q, hppne, hpq, hr⟩ :=
    insertNode_some_spec targetId index dragged root' r hins
  set len := (childList tgt).length with hlenEq
  set k := clampIdx index len with hkEq
  refine ⟨dragged, setChildren tgt (some ((childList tgt).insertIdx k dragged)),
    (childList tgt).insertIdx k dragged, k, hfind, htf2, setChildren_children _ _,
    ?_, ?_, ?_⟩
  · have hk : k ≤ len := clampIdx_le index len
    rw [List.get?_eq_getElem?,
      List.getElem?_eq_getElem (by rw [List.length_insertIdx _ _ hk]; omega)]
    rw [List.getElem_insertIdx_self _ _ _ hk]
  · have hk : k ≤ len := clampIdx_le index len
    have hlen : ((childList tgt).insertIdx k dragged).length = len + 1 :=
      List.length_insertIdx _ _ hk
    rw [hlen, hkEq, clampIdx_cast]
    push_cast
    omega
  · have hdin : dragId ∈ allIds dragged := by rw [← hdid]; exact id_mem_allIds dragged
    rw [hsplit] at hnd
    have hnd1 : (pre ++ (allIds dragged ++ post)).Nodup := by
      rwa [← List.append_assoc]
    rw [List.nodup_append] at hnd1
    obtain ⟨hnp, hnd2, hdisj1⟩ := hnd1
    rw [List.nodup_append] at hnd2
    obtain ⟨hndd, hnpost, hdisj2⟩ := hnd2
    have hnotpre : dragId ∉ pre := fun hx => hdisj1 hx (List.mem_append_left _ hdin)
    have hnotpost : dragId ∉ post := fun hx => hdisj2 hdin hx
    have hcd : (allIds dragged).count dragId = 1 :=
      List.count_eq_one_of_mem hndd hdin
    have hc0 : (allIds root').count dragId = 0 := by
      rw [hroot', List.count_append,
        List.count_eq_zero_of_not_mem hnotpre, List.count_eq_zero_of_not_mem hnotpost]
    have hpq0 : p.count dragId + q.count dragId = 0 := by
      have hx := hc0
      rw [hpq, List.count_append] at hx
      omega
    rw [hr, List.count_append, List.count_append, hcd]
    omega

/-- Witness for C1 at a concrete tree: moving the leaf `x` into the empty
container `c1` at index 0. -/
theorem c1_move_no_orphan_witness :
    (allIds moveDemoRoot).Nodup ∧
    (moveComponentTo moveDemoRoot "x" "c1" 0 = moveDemoRoot ∨
      ∃ dragged tgt cs k,
        findNode moveDemoRoot "x" = some dragged ∧
        findNode (moveComponentTo moveDemoRoot "x" "c1" 0) "c1" = some tgt ∧
        tgt.children = some cs ∧
        cs.get? k = some dragged ∧
        (k : Int) = min (max (0 : Int) 0) ((cs.length : Int) - 1) ∧
        (allIds (moveComponentTo moveDemoRoot "x" "c1" 0)).count "x" = 1) :=
  ⟨by decide, c1_move_no_orphan moveDemoRoot "x" "c1" 0 (by decide)⟩

end UIB
